import Mathlib

/-!
Verification of the LM Studio streaming provider (`src/api/providers/lm-studio.ts`).

Text is modelled as `List Char`.  The stateful TypeScript classes become
explicit state passing: the `SSEParser` buffer is a `List Char`, the
`XmlMatcher` scanner state is a small structure, and `createMessage`'s
streaming loop is a recursive function over the list of transport chunks.
Host builtins (`JSON.parse` plus field access, `countTokens`, `URL.canParse`,
`axios.get`) are abstracted as function parameters of the model.
-/

/-- JavaScript `String.prototype.trim`: strip leading and trailing
whitespace. -/
def jsTrim (s : List Char) : List Char :=
  ((s.dropWhile Char.isWhitespace).reverse.dropWhile Char.isWhitespace).reverse

/-- The SSE event-data line marker `"data: "`. -/
def dataMark : List Char := ['d', 'a', 't', 'a', ':', ' ']

/-- The SSE terminator sentinel `"[DONE]"`. -/
def doneMark : List Char := ['[', 'D', 'O', 'N', 'E', ']']

/-- Prepend a character to the first line of a split result (the first
line may be the trailing incomplete one when no complete line exists). -/
def consLine (c : Char) : List (List Char) × List Char → List (List Char) × List Char
  | ([], r) => ([], c :: r)
  | (l :: ls, r) => ((c :: l) :: ls, r)

/-- `buffer.split("\n")` followed by `lines.pop() || ""` (lm-studio.ts
lines 27-28): returns the complete lines and the trailing (possibly empty,
possibly unterminated) last line that stays in the buffer.  JavaScript
`split` always returns a nonempty array, so `pop` is total here. -/
def splitNl : List Char → List (List Char) × List Char
  | [] => ([], [])
  | c :: rest =>
    if c = '\n' then ([] :: (splitNl rest).1, (splitNl rest).2)
    else consLine c (splitNl rest)

/-- The per-line body of `SSEParser.parse` (lm-studio.ts lines 30-37):
`if (line.startsWith("data: ")) { const data = line.slice(6).trim();
if (data && data !== "[DONE]") results.push(data) }`. -/
def processLine (line : List Char) : List (List Char) :=
  if line.take 6 = dataMark then
    if jsTrim (line.drop 6) ≠ [] ∧ jsTrim (line.drop 6) ≠ doneMark then
      [jsTrim (line.drop 6)]
    else []
  else []

namespace SSEParser

/-- `SSEParser.parse` (lm-studio.ts lines 23-40): append the chunk to the
buffer, split on newlines, keep the trailing line as the new buffer, and
process each complete line. -/
def parse (buffer chunk : List Char) : List (List Char) × List Char :=
  ((splitNl (buffer ++ chunk)).1.flatMap processLine, (splitNl (buffer ++ chunk)).2)

/-- `SSEParser.final` (lm-studio.ts lines 42-54): trim the buffer and, if
nonempty, apply the `"data: "` / `"[DONE]"` rule to it. -/
def final (buffer : List Char) : List (List Char) :=
  if jsTrim buffer ≠ [] then
    if (jsTrim buffer).take 6 = dataMark then
      if jsTrim ((jsTrim buffer).drop 6) ≠ [] ∧
          jsTrim ((jsTrim buffer).drop 6) ≠ doneMark then
        [jsTrim ((jsTrim buffer).drop 6)]
      else []
    else []
  else []

end SSEParser

/-- Feed a list of chunks through `SSEParser.parse` in order starting from an
empty buffer, then flush with `SSEParser.final`; collect all payloads. -/
def runSSE (chunks : List (List Char)) : List (List Char) :=
  let r := chunks.foldl
    (fun acc c =>
      let p := SSEParser.parse acc.2 c
      (acc.1 ++ p.1, p.2))
    (([] : List (List Char)), ([] : List Char))
  r.1 ++ SSEParser.final r.2

/-- The spec's frame rule (spec section 4.2): "if it carries the event-data
prefix, strip the prefix, trim, and — unless the payload is the
stream-terminator sentinel or empty — append it to the result". -/
def specFrameRule (line : List Char) : List (List Char) :=
  if line.take 6 = dataMark then
    if jsTrim (line.drop 6) = [] ∨ jsTrim (line.drop 6) = doneMark then []
    else [jsTrim (line.drop 6)]
  else []

theorem processLine_eq_specFrameRule : processLine = specFrameRule := by
  funext l
  simp only [processLine, specFrameRule]
  by_cases h1 : l.take 6 = dataMark
  · simp only [if_pos h1]
    by_cases h2 : jsTrim (l.drop 6) = []
    · simp [h2]
    · by_cases h3 : jsTrim (l.drop 6) = doneMark
      · simp [h2, h3]
      · simp [h2, h3]
  · simp [h1]

theorem splitNl_cons_nl (s : List Char) :
    splitNl ('\n' :: s) = ([] :: (splitNl s).1, (splitNl s).2) := by
  simp [splitNl]

theorem splitNl_cons_ne (c : Char) (s : List Char) (hc : c ≠ '\n') :
    splitNl (c :: s) = consLine c (splitNl s) := by
  simp [splitNl, hc]

theorem splitNl_append (a b : List Char) :
    splitNl (a ++ b) =
      ((splitNl a).1 ++ (splitNl ((splitNl a).2 ++ b)).1,
        (splitNl ((splitNl a).2 ++ b)).2) := by
  induction a with
  | nil => simp [splitNl]
  | cons c a ih =>
    by_cases hc : c = '\n'
    · subst hc
      rw [List.cons_append, splitNl_cons_nl, splitNl_cons_nl, ih]
      simp
    · rcases hA : splitNl a with ⟨la, ra⟩
      cases la with
      | nil =>
        rw [List.cons_append, splitNl_cons_ne c (a ++ b) hc, ih, hA]
        rw [splitNl_cons_ne c a hc, hA]
        simp only [consLine, List.nil_append, List.cons_append,
          splitNl_cons_ne c (ra ++ b) hc]
      | cons l ls =>
        rw [List.cons_append, splitNl_cons_ne c (a ++ b) hc, ih, hA]
        rw [splitNl_cons_ne c a hc, hA]
        simp only [consLine, List.cons_append]

theorem splitNl_snd_no_nl (s : List Char) : '\n' ∉ (splitNl s).2 := by
  induction s with
  | nil => simp [splitNl]
  | cons c s ih =>
    by_cases hc : c = '\n'
    · subst hc
      rw [splitNl_cons_nl]
      exact ih
    · rw [splitNl_cons_ne c s hc]
      rcases hA : splitNl s with ⟨la, ra⟩
      rw [hA] at ih
      cases la with
      | nil =>
        simp only [consLine, List.mem_cons, not_or]
        exact ⟨fun h => hc h.symm, ih⟩
      | cons l ls => simpa [consLine] using ih

theorem splitNl_no_nl (s : List Char) (h : '\n' ∉ s) : splitNl s = ([], s) := by
  induction s with
  | nil => rfl
  | cons c s ih =>
    simp only [List.mem_cons, not_or] at h
    have hc : c ≠ '\n' := fun hcc => h.1 hcc.symm
    rw [splitNl_cons_ne c s hc, ih h.2]
    rfl

theorem parse_append (st c1 c2 : List Char) :
    SSEParser.parse st (c1 ++ c2) =
      ((SSEParser.parse st c1).1 ++ (SSEParser.parse (SSEParser.parse st c1).2 c2).1,
        (SSEParser.parse (SSEParser.parse st c1).2 c2).2) := by
  unfold SSEParser.parse
  rw [← List.append_assoc, splitNl_append (st ++ c1) c2]
  simp [List.flatMap_append]

/-- Folding the feed step over a chunk list starting from a newline-free
buffer is the same as one big `parse` of the concatenation. -/
theorem foldl_parse (cs : List (List Char)) :
    ∀ (out : List (List Char)) (st : List Char), '\n' ∉ st →
      cs.foldl
        (fun acc c =>
          let p := SSEParser.parse acc.2 c
          (acc.1 ++ p.1, p.2)) (out, st) =
      (out ++ (SSEParser.parse st cs.flatten).1, (SSEParser.parse st cs.flatten).2) := by
  induction cs with
  | nil =>
    intro out st hst
    have h0 : SSEParser.parse st [] = ([], st) := by
      unfold SSEParser.parse
      rw [List.append_nil, splitNl_no_nl st hst]
      rfl
    simp [h0]
  | cons c cs ih =>
    intro out st hst
    have hst' : '\n' ∉ (SSEParser.parse st c).2 := by
      unfold SSEParser.parse
      exact splitNl_snd_no_nl (st ++ c)
    simp only [List.foldl_cons, List.flatten_cons]
    rw [ih (out ++ (SSEParser.parse st c).1) (SSEParser.parse st c).2 hst',
      parse_append st c cs.flatten]
    simp

/-- C1: the SSE demuxer is chunk-boundary independent — any two chunkings
of the same underlying stream produce the same ordered payload list after
feeding each chunk and flushing. -/
theorem sse_chunk_boundary_independence (cs₁ cs₂ : List (List Char))
    (h : cs₁.flatten = cs₂.flatten) : runSSE cs₁ = runSSE cs₂ := by
  unfold runSSE
  rw [foldl_parse cs₁ [] [] (by simp), foldl_parse cs₂ [] [] (by simp), h]

/-- C1 witness: splitting a concrete stream mid-payload does not change the
demuxed output. -/
theorem sse_chunk_boundary_independence_witness :
    (["da".data, "ta: hi\nda".data].flatten = ["data: hi\nda".data].flatten) ∧
      runSSE ["da".data, "ta: hi\nda".data] = runSSE ["data: hi\nda".data] :=
  ⟨by decide, sse_chunk_boundary_independence _ _ (by decide)⟩

/-- C5 counterexample: `final` does not apply the per-line rule of `parse`
to the raw buffered text — a buffer with leading whitespace before
`"data: "` yields a payload from `final` but none from the line rule. -/
theorem sse_final_differs_from_line_rule :
    SSEParser.final (' ' :: "data: x".data) ≠
      specFrameRule (' ' :: "data: x".data) := by decide

/-- C5 amended: each complete line seen by `parse` is processed exactly by
the spec's frame rule (prefix, strip, trim, drop empty and terminator), and
`final` applies that rule to the whitespace-trimmed remaining buffer. -/
theorem sse_parse_final_frame_rule :
    (∀ buffer chunk : List Char,
        SSEParser.parse buffer chunk =
          ((splitNl (buffer ++ chunk)).1.flatMap specFrameRule,
            (splitNl (buffer ++ chunk)).2)) ∧
      ∀ b : List Char, SSEParser.final b = specFrameRule (jsTrim b) := by
  constructor
  · intro buffer chunk
    unfold SSEParser.parse
    rw [processLine_eq_specFrameRule]
  · intro b
    by_cases h : jsTrim b = []
    · unfold SSEParser.final
      rw [if_neg (fun hh => hh h), h]
      decide
    · unfold SSEParser.final specFrameRule
      rw [if_pos h]
      by_cases h2 : (jsTrim b).take 6 = dataMark
      · rw [if_pos h2, if_pos h2]
        by_cases h3 : jsTrim ((jsTrim b).drop 6) = []
        · simp [h3]
        · by_cases h4 : jsTrim ((jsTrim b).drop 6) = doneMark
          · simp [h3, h4]
          · simp [h3, h4]
      · rw [if_neg h2, if_neg h2]

namespace XmlMatcher

/-- Modelled from the spec: the tag classifier's output unit.  The source of
`XmlMatcher` (`src/utils/xml-matcher.ts`) is not included under `src/`; only
its call site in `createMessage` (lm-studio.ts lines 188-195) is, where each
emitted chunk carries `matched` and `data`. -/
structure Segment where
  matched : Bool
  data : List Char
deriving DecidableEq

/-- Modelled from the spec: scanner state of the tag classifier — whether the
scanner last confirmed being inside the reasoning tag, and the buffered
partial tag candidate that is not yet classified (spec section 4.3: "the
classifier must buffer a partial tag prefix rather than emitting it as plain
text"). -/
structure MState where
  inside : Bool
  buf : List Char
deriving DecidableEq

/-- The opening reasoning delimiter `<think>` (tag name from
lm-studio.ts line 189). -/
def openTag : List Char := ['<', 't', 'h', 'i', 'n', 'k', '>']

/-- The closing reasoning delimiter `</think>`. -/
def closeTag : List Char := ['<', '/', 't', 'h', 'i', 'n', 'k', '>']

/-- Boolean test that the first list is a leading segment of the second. -/
def isPfx : List Char → List Char → Bool
  | [], _ => true
  | _ :: _, [] => false
  | a :: as, b :: bs => a == b && isPfx as bs

/-- Emit buffered characters as one segment of the current classification,
omitting empty segments. -/
def emitBuf (inside : Bool) (buf : List Char) : List Segment :=
  if buf = [] then [] else [⟨inside, buf⟩]

/-- Modelled from the spec: one scanner step (spec section 4.3).  The
candidate `buf ++ [c]` either completes the current delimiter (toggle
inside/outside, consume the delimiter), extends a partial delimiter (keep
buffering), or fails to match, in which case the buffered characters are
ordinary content of the current classification; a failing character `'<'`
restarts a delimiter candidate (the delimiters contain `'<'` only at their
head, so this is the longest suffix that can still open a delimiter). -/
def stepChar (st : MState) (c : Char) : List Segment × MState :=
  if st.buf ++ [c] = (if st.inside then closeTag else openTag) then
    ([], ⟨!st.inside, []⟩)
  else if isPfx (st.buf ++ [c]) (if st.inside then closeTag else openTag) then
    ([], ⟨st.inside, st.buf ++ [c]⟩)
  else if c = '<' then
    (emitBuf st.inside st.buf, ⟨st.inside, [c]⟩)
  else
    (emitBuf st.inside (st.buf ++ [c]), ⟨st.inside, []⟩)

/-- Accumulating form of `stepChar` used to scan a whole delta. -/
def stepAcc (acc : List Segment × MState) (c : Char) : List Segment × MState :=
  (acc.1 ++ (stepChar acc.2 c).1, (stepChar acc.2 c).2)

/-- Modelled from the spec: `update(textDelta)` scans the delta character by
character, emitting classified segments in order. -/
def update (st : MState) (delta : List Char) : List Segment × MState :=
  delta.foldl stepAcc (([] : List Segment), st)

/-- Modelled from the spec: `final()` flushes any buffered partial content,
classified according to whichever state the scanner last confirmed. -/
def final (st : MState) : List Segment := emitBuf st.inside st.buf

end XmlMatcher

/-- Accumulating form of `update` used to feed a sequence of deltas. -/
def updAcc (acc : List XmlMatcher.Segment × XmlMatcher.MState) (d : List Char) :
    List XmlMatcher.Segment × XmlMatcher.MState :=
  (acc.1 ++ (XmlMatcher.update acc.2 d).1, (XmlMatcher.update acc.2 d).2)

/-- Run the classifier over a list of deltas (`update` on each, in order,
from the initial outside state) and flush with `final`. -/
def runMatcher (deltas : List (List Char)) : List XmlMatcher.Segment :=
  let r := deltas.foldl updAcc
    (([] : List XmlMatcher.Segment), (⟨false, []⟩ : XmlMatcher.MState))
  r.1 ++ XmlMatcher.final r.2

theorem update_acc (s : List Char) :
    ∀ (out : List XmlMatcher.Segment) (st : XmlMatcher.MState),
      s.foldl XmlMatcher.stepAcc (out, st) =
      (out ++ (XmlMatcher.update st s).1, (XmlMatcher.update st s).2) := by
  induction s with
  | nil => intro out st; simp [XmlMatcher.update]
  | cons c s ih =>
    intro out st
    simp only [List.foldl_cons, XmlMatcher.update, XmlMatcher.stepAcc, List.nil_append]
    rw [ih, ih ((XmlMatcher.stepChar st c).1)]
    simp

theorem update_cons (st : XmlMatcher.MState) (c : Char) (s : List Char) :
    XmlMatcher.update st (c :: s) =
      ((XmlMatcher.stepChar st c).1 ++ (XmlMatcher.update (XmlMatcher.stepChar st c).2 s).1,
        (XmlMatcher.update (XmlMatcher.stepChar st c).2 s).2) := by
  unfold XmlMatcher.update
  simp only [List.foldl_cons, XmlMatcher.stepAcc]
  rw [update_acc]
  simp [XmlMatcher.update]

theorem update_append (st : XmlMatcher.MState) (a b : List Char) :
    XmlMatcher.update st (a ++ b) =
      ((XmlMatcher.update st a).1 ++ (XmlMatcher.update (XmlMatcher.update st a).2 b).1,
        (XmlMatcher.update (XmlMatcher.update st a).2 b).2) := by
  unfold XmlMatcher.update
  rw [List.foldl_append]
  rw [show (List.foldl XmlMatcher.stepAcc (([] : List XmlMatcher.Segment), st) a) =
      XmlMatcher.update st a from rfl]
  rw [update_acc]
  simp [XmlMatcher.update]

theorem stepChar_plain (b : Bool) (c : Char) (hc : c ≠ '<') :
    XmlMatcher.stepChar ⟨b, []⟩ c = ([⟨b, [c]⟩], ⟨b, []⟩) := by
  cases b <;>
    simp [XmlMatcher.stepChar, XmlMatcher.openTag, XmlMatcher.closeTag,
      XmlMatcher.isPfx, XmlMatcher.emitBuf, hc]

/-- Scanning tag-free text from a clean scanner state emits every character
as a singleton segment of the current classification. -/
theorem update_plain (s : List Char) (b : Bool) (hs : ∀ c ∈ s, c ≠ '<') :
    XmlMatcher.update ⟨b, []⟩ s =
      (s.map (fun c => (⟨b, [c]⟩ : XmlMatcher.Segment)), ⟨b, []⟩) := by
  induction s with
  | nil => rfl
  | cons c s ih =>
    have hc : c ≠ '<' := hs c (by simp)
    rw [update_cons, stepChar_plain b c hc, ih (fun x hx => hs x (by simp [hx]))]
    simp

theorem update_openTag :
    XmlMatcher.update ⟨false, []⟩ XmlMatcher.openTag = ([], ⟨true, []⟩) := by decide

theorem update_closeTag :
    XmlMatcher.update ⟨true, []⟩ XmlMatcher.closeTag = ([], ⟨false, []⟩) := by decide

/-- An alternating list of `(reasoning?, content)` pieces rendered to the
wire form: reasoning pieces are wrapped in the delimiter tags. -/
def renderTagged : List (Bool × List Char) → List Char
  | [] => []
  | p :: ps =>
    (if p.1 then XmlMatcher.openTag ++ p.2 ++ XmlMatcher.closeTag else p.2) ++
      renderTagged ps

/-- The segments the classifier is expected to emit for the rendered pieces:
each content character as a singleton segment of its piece's kind. -/
def segsOf : List (Bool × List Char) → List XmlMatcher.Segment
  | [] => []
  | p :: ps => (p.2.map fun c => (⟨p.1, [c]⟩ : XmlMatcher.Segment)) ++ segsOf ps

theorem update_renderTagged (ps : List (Bool × List Char))
    (hps : ∀ p ∈ ps, ∀ c ∈ p.2, c ≠ '<') :
    XmlMatcher.update ⟨false, []⟩ (renderTagged ps) = (segsOf ps, ⟨false, []⟩) := by
  induction ps with
  | nil => rfl
  | cons p ps ih =>
    have hp : ∀ c ∈ p.2, c ≠ '<' := hps p (by simp)
    have hps' : ∀ q ∈ ps, ∀ c ∈ q.2, c ≠ '<' := fun q hq => hps q (by simp [hq])
    rcases p with ⟨b, s⟩
    cases b
    · show XmlMatcher.update ⟨false, []⟩ (s ++ renderTagged ps) = _
      rw [update_append, update_plain s false hp]
      simp only [ih hps']
      simp [segsOf]
    · show XmlMatcher.update ⟨false, []⟩
        ((XmlMatcher.openTag ++ s ++ XmlMatcher.closeTag) ++ renderTagged ps) = _
      rw [update_append, List.append_assoc, update_append, update_openTag]
      simp only []
      rw [update_append, update_plain s true hp]
      simp only []
      rw [update_closeTag]
      simp only [ih hps']
      simp [segsOf]

theorem foldl_updAcc (ds : List (List Char)) :
    ∀ (out : List XmlMatcher.Segment) (st : XmlMatcher.MState),
      ds.foldl updAcc (out, st) =
        (out ++ (XmlMatcher.update st ds.flatten).1,
          (XmlMatcher.update st ds.flatten).2) := by
  induction ds with
  | nil => intro out st; simp [XmlMatcher.update]
  | cons d ds ih =>
    intro out st
    simp only [List.foldl_cons, List.flatten_cons, updAcc]
    rw [ih, update_append]
    simp

/-- Concatenation of the content of all emitted segments, in order. -/
def contentJoin (segs : List XmlMatcher.Segment) : List Char :=
  (segs.map fun s => s.data).flatten

/-- Concatenation of the content of the reasoning-classified segments. -/
def reasoningJoin (segs : List XmlMatcher.Segment) : List Char :=
  ((segs.filter fun s => s.matched).map fun s => s.data).flatten

/-- Concatenation of the content of the text-classified segments. -/
def textJoin (segs : List XmlMatcher.Segment) : List Char :=
  ((segs.filter fun s => !s.matched).map fun s => s.data).flatten

/-- Concatenation of the contents of the pieces, delimiters excluded. -/
def plainJoin (ps : List (Bool × List Char)) : List Char :=
  (ps.map fun p => p.2).flatten

theorem flatten_singletons (s : List Char) :
    (s.map fun c => ([c] : List Char)).flatten = s := by
  induction s with
  | nil => rfl
  | cons c s ih => simp [ih]

theorem contentJoin_append (a b : List XmlMatcher.Segment) :
    contentJoin (a ++ b) = contentJoin a ++ contentJoin b := by
  simp [contentJoin]

theorem reasoningJoin_append (a b : List XmlMatcher.Segment) :
    reasoningJoin (a ++ b) = reasoningJoin a ++ reasoningJoin b := by
  simp [reasoningJoin]

theorem textJoin_append (a b : List XmlMatcher.Segment) :
    textJoin (a ++ b) = textJoin a ++ textJoin b := by
  simp [textJoin]

theorem contentJoin_piece (b : Bool) (s : List Char) :
    contentJoin (s.map fun c => (⟨b, [c]⟩ : XmlMatcher.Segment)) = s := by
  simp [contentJoin, List.map_map, Function.comp_def, flatten_singletons]

theorem reasoningJoin_piece (b : Bool) (s : List Char) :
    reasoningJoin (s.map fun c => (⟨b, [c]⟩ : XmlMatcher.Segment)) =
      if b then s else [] := by
  cases b <;>
    simp [reasoningJoin, List.filter_map, Function.comp_def, List.map_map,
      flatten_singletons]

theorem textJoin_piece (b : Bool) (s : List Char) :
    textJoin (s.map fun c => (⟨b, [c]⟩ : XmlMatcher.Segment)) =
      if b then [] else s := by
  cases b <;>
    simp [textJoin, List.filter_map, Function.comp_def, List.map_map,
      flatten_singletons]

theorem contentJoin_segsOf (ps : List (Bool × List Char)) :
    contentJoin (segsOf ps) = plainJoin ps := by
  induction ps with
  | nil => rfl
  | cons p ps ih =>
    simp only [segsOf, contentJoin_append, contentJoin_piece, ih, plainJoin,
      List.map_cons, List.flatten_cons]

theorem reasoningJoin_segsOf (ps : List (Bool × List Char)) :
    reasoningJoin (segsOf ps) = plainJoin (ps.filter fun p => p.1) := by
  induction ps with
  | nil => rfl
  | cons p ps ih =>
    rcases p with ⟨b, s⟩
    cases b <;>
      simp [segsOf, reasoningJoin_append, reasoningJoin_piece, ih, plainJoin]

theorem textJoin_segsOf (ps : List (Bool × List Char)) :
    textJoin (segsOf ps) = plainJoin (ps.filter fun p => !p.1) := by
  induction ps with
  | nil => rfl
  | cons p ps ih =>
    rcases p with ⟨b, s⟩
    cases b <;>
      simp [segsOf, textJoin_append, textJoin_piece, ih, plainJoin]

/-- C2 counterexample: the classifier is not lossless on matched tags — for
the single delta `"<think>hi</think>"` the concatenated content of all
emitted segments is `"hi"`, not the original character stream (the matched
delimiters are consumed). -/
theorem classifier_not_lossless :
    contentJoin (runMatcher [XmlMatcher.openTag ++ ['h', 'i'] ++ XmlMatcher.closeTag]) ≠
      [XmlMatcher.openTag ++ ['h', 'i'] ++ XmlMatcher.closeTag].flatten := by decide

/-- C2 amended: for any delta sequence carrying alternating plain/reasoning
pieces (reasoning pieces wrapped in the delimiter tags, piece contents free
of the tag-opening character), however the stream is split across `update`
calls, concatenating the emitted segments' content reproduces the original
character stream with the matched delimiter tags removed; the spans inside
matched tags are exactly the reasoning-classified content and the spans
outside are exactly the text-classified content, in order. -/
theorem classifier_lossless_up_to_delimiters (ps : List (Bool × List Char))
    (ds : List (List Char)) (hds : ds.flatten = renderTagged ps)
    (hlt : ∀ p ∈ ps, ∀ c ∈ p.2, c ≠ '<') :
    contentJoin (runMatcher ds) = plainJoin ps ∧
      reasoningJoin (runMatcher ds) = plainJoin (ps.filter fun p => p.1) ∧
      textJoin (runMatcher ds) = plainJoin (ps.filter fun p => !p.1) := by
  have hrm : runMatcher ds = segsOf ps := by
    unfold runMatcher
    rw [foldl_updAcc, hds, update_renderTagged ps hlt]
    simp [XmlMatcher.final, XmlMatcher.emitBuf]
  rw [hrm]
  exact ⟨contentJoin_segsOf ps, reasoningJoin_segsOf ps, textJoin_segsOf ps⟩

/-- C2 witness: a concrete stream with one reasoning span split across
deltas mid-tag and mid-span. -/
theorem classifier_lossless_up_to_delimiters_witness :
    (["ab<th".data, "ink>se".data, "cret</think>ok".data].flatten =
        renderTagged [(false, "ab".data), (true, "secret".data), (false, "ok".data)]) ∧
      (∀ p ∈ [(false, "ab".data), (true, "secret".data), (false, "ok".data)],
          ∀ c ∈ p.2, c ≠ '<') ∧
      (contentJoin (runMatcher ["ab<th".data, "ink>se".data, "cret</think>ok".data]) =
          plainJoin [(false, "ab".data), (true, "secret".data), (false, "ok".data)] ∧
        reasoningJoin (runMatcher ["ab<th".data, "ink>se".data, "cret</think>ok".data]) =
          plainJoin ([(false, "ab".data), (true, "secret".data),
            (false, "ok".data)].filter fun p => p.1) ∧
        textJoin (runMatcher ["ab<th".data, "ink>se".data, "cret</think>ok".data]) =
          plainJoin ([(false, "ab".data), (true, "secret".data),
            (false, "ok".data)].filter fun p => !p.1)) :=
  ⟨by decide, by decide,
    classifier_lossless_up_to_delimiters _ _ (by decide) (by decide)⟩

/-- One tool-call delta as carried in `delta.tool_calls` (lm-studio.ts
lines 229-238): positional index plus optional id, name, and partial
arguments text. -/
structure ToolCallDelta where
  index : Nat
  id : Option (List Char)
  name : Option (List Char)
  args : Option (List Char)
deriving DecidableEq

/-- An abstraction of a successfully JSON-parsed SSE payload, keeping the
fields `createMessage` reads: `choices[0].delta.content` (empty list for an
absent or empty — hence falsy — string), `choices[0].delta.tool_calls`, and
`choices[0].finish_reason` (empty list for absent or empty). -/
structure Frame where
  content : List Char
  toolCalls : List ToolCallDelta
  finishReason : List Char
deriving DecidableEq

/-- The typed output events of `createMessage` (`ApiStream` chunks). -/
inductive OutputEvent where
  | text (s : List Char)
  | reasoning (s : List Char)
  | toolCallPartial (index : Nat) (id : Option (List Char))
      (name : Option (List Char)) (args : Option (List Char))
  | toolCallEnd (index : Nat)
  | usage (inputTokens outputTokens : Nat)
deriving DecidableEq

/-- The transform at the `XmlMatcher` call site (lm-studio.ts lines 188-195):
`{type: chunk.matched ? "reasoning" : "text", text: chunk.data}`. -/
def segToEvent (s : XmlMatcher.Segment) : OutputEvent :=
  if s.matched then OutputEvent.reasoning s.data else OutputEvent.text s.data

/-- Modelled from the spec: `NativeToolCallParser.processFinishReason`
(`src/core/assistant-message/NativeToolCallParser.ts`, not included under
`src/`) emits "one terminal event per tool call index seen since the last
end, in ascending index order" (spec section 4.4). -/
def endEvents (seen : List Nat) : List OutputEvent :=
  ((List.range (seen.foldr Nat.max 0 + 1)).filter fun i => seen.contains i).map
    OutputEvent.toolCallEnd

/-- The mutable state threaded through one `createMessage` run: the SSE
buffer, the classifier state, the accumulated `assistantText`, and the
tool-call indices seen since the last finish reason (assembler state). -/
structure PipeState where
  sseBuf : List Char
  mState : XmlMatcher.MState
  assistantText : List Char
  seen : List Nat
deriving DecidableEq

/-- The per-payload dispatch of the streaming loop (lm-studio.ts lines
215-251): decode the payload (a failed decode is the caught `JSON.parse`
exception — skip); route `delta.content` through the classifier and append
it to `assistantText`; emit one `tool_call_partial` per tool-call delta;
on a truthy `finish_reason`, emit the assembler's end events. -/
def handlePayload (decode : List Char → Option Frame) (st : PipeState)
    (data : List Char) : List OutputEvent × PipeState :=
  match decode data with
  | none => ([], st)
  | some f =>
    let u := XmlMatcher.update st.mState f.content
    let mState' := if f.content ≠ [] then u.2 else st.mState
    let contentEvents := if f.content ≠ [] then u.1.map segToEvent else []
    let toolEvents := f.toolCalls.map fun tc =>
      OutputEvent.toolCallPartial tc.index tc.id tc.name tc.args
    let seen1 := st.seen ++ f.toolCalls.map fun tc => tc.index
    let finishEvents := if f.finishReason ≠ [] then endEvents seen1 else []
    let seen2 := if f.finishReason ≠ [] then [] else seen1
    (contentEvents ++ toolEvents ++ finishEvents,
      { sseBuf := st.sseBuf
        mState := mState'
        assistantText := st.assistantText ++ f.content
        seen := seen2 })

/-- Dispatch a list of decoded payloads in order. -/
def handlePayloads (decode : List Char → Option Frame) :
    PipeState → List (List Char) → List OutputEvent × PipeState
  | st, [] => ([], st)
  | st, d :: ds =>
    ((handlePayload decode st d).1 ++
        (handlePayloads decode (handlePayload decode st d).2 ds).1,
      (handlePayloads decode (handlePayload decode st d).2 ds).2)

/-- One iteration body of the streaming loop (lm-studio.ts lines 205-252):
feed the chunk to the SSE parser, then dispatch each payload. -/
def processChunk (decode : List Char → Option Frame) (st : PipeState)
    (chunk : List Char) : List OutputEvent × PipeState :=
  handlePayloads decode
    { st with sseBuf := (SSEParser.parse st.sseBuf chunk).2 }
    (SSEParser.parse st.sseBuf chunk).1

/-- The per-payload dispatch of the post-stream flush (lm-studio.ts lines
258-272): identical to `handlePayload` except that only `delta.content` is
read — tool-call deltas and finish reasons of the final buffered frame are
not examined. -/
def finalFrame (decode : List Char → Option Frame) (st : PipeState)
    (data : List Char) : List OutputEvent × PipeState :=
  match decode data with
  | none => ([], st)
  | some f =>
    let u := XmlMatcher.update st.mState f.content
    ((if f.content ≠ [] then u.1.map segToEvent else []),
      { st with
        mState := if f.content ≠ [] then u.2 else st.mState
        assistantText := st.assistantText ++ f.content })

/-- Dispatch the flushed payloads in order. -/
def finalFrames (decode : List Char → Option Frame) :
    PipeState → List (List Char) → List OutputEvent × PipeState
  | st, [] => ([], st)
  | st, d :: ds =>
    ((finalFrame decode st d).1 ++
        (finalFrames decode (finalFrame decode st d).2 ds).1,
      (finalFrames decode (finalFrame decode st d).2 ds).2)

/-- The post-stream flush phase (lm-studio.ts lines 256-277): flush the SSE
buffer, process each remaining payload (content only), then flush the
classifier. -/
def finalPhase (decode : List Char → Option Frame) (st : PipeState) :
    List OutputEvent × PipeState :=
  ((finalFrames decode st (SSEParser.final st.sseBuf)).1 ++
      (XmlMatcher.final (finalFrames decode st (SSEParser.final st.sseBuf)).2.mState).map
        segToEvent,
    (finalFrames decode st (SSEParser.final st.sseBuf)).2)

/-- The error recognized by the catch block (lm-studio.ts lines 297-313):
a transport cancellation (`axios.isCancel` / `CanceledError`), the axios
timeout code `ECONNABORTED`, the destroyed-stream code
`ERR_STREAM_DESTROYED`, or anything else. -/
inductive StreamErr where
  | canceled
  | connAborted
  | streamDestroyed
  | other
deriving DecidableEq

/-- How one `createMessage` run terminates for the caller: the async
generator returns normally, or it throws the timeout error (line 304) or
the generic failure (lines 311-313). -/
inductive Outcome where
  | ok
  | failedTimeout
  | failedGeneric
deriving DecidableEq

/-- One `createMessage` run's environment: the JSON decode abstraction, the
`countTokens` results for the prompt (`none` models a throw) and for the
accumulated assistant text, the transport chunks, how the transport ends
after the last chunk (`none` = graceful end, `some e` = the pull after the
last chunk throws `e`), and the abort-signal schedule (`some j` means the
signal reads true at the loop's check of iteration `j` and at every later
program point; `none` means it is never set during the run). -/
structure RunInput where
  decode : List Char → Option Frame
  countIn : Option Nat
  countOut : List Char → Option Nat
  chunks : List (List Char)
  streamErr : Option StreamErr
  abortAt : Option Nat

/-- Whether the abort check at loop iteration `i` observes the signal. -/
def observedAt (abortAt : Option Nat) (i : Nat) : Bool :=
  match abortAt with
  | some j => decide (j ≤ i)
  | none => false

/-- Whether the abort signal is set at the program points after the loop
(the line-255 check and the catch block). -/
def abortedAtEnd (inp : RunInput) : Bool :=
  observedAt inp.abortAt inp.chunks.length

/-- The streaming loop (lm-studio.ts lines 205-252): at each iteration
check the abort signal and break if set, otherwise process the chunk.
Returns the emitted events, the final pipeline state, and whether the loop
exited via the abort break. -/
def streamLoop (decode : List Char → Option Frame) (abortAt : Option Nat) :
    Nat → PipeState → List (List Char) → List OutputEvent × PipeState × Bool
  | _, st, [] => ([], st, false)
  | i, st, c :: cs =>
    if observedAt abortAt i then ([], st, true)
    else
      ((processChunk decode st c).1 ++
          (streamLoop decode abortAt (i + 1) (processChunk decode st c).2 cs).1,
        (streamLoop decode abortAt (i + 1) (processChunk decode st c).2 cs).2.1,
        (streamLoop decode abortAt (i + 1) (processChunk decode st c).2 cs).2.2)

/-- The initial pipeline state of a run. -/
def initState : PipeState :=
  { sseBuf := [], mState := ⟨false, []⟩, assistantText := [], seen := [] }

/-- One full `createMessage` run (lm-studio.ts lines 102-323): count input
tokens (throw degrades to 0), run the streaming loop, and then — if the
loop did not break on abort — either dispatch the transport-end error
through the catch block (lines 297-313) or, when the transport ended
gracefully and the signal is not set (line 255), run the flush phase,
count output tokens (throw degrades to 0), and emit the final usage event
(lines 287-291). -/
def run (inp : RunInput) : List OutputEvent × Outcome :=
  if (streamLoop inp.decode inp.abortAt 0 initState inp.chunks).2.2 then
    ((streamLoop inp.decode inp.abortAt 0 initState inp.chunks).1, Outcome.ok)
  else
    match inp.streamErr with
    | some e =>
      if e = StreamErr.canceled ∨ abortedAtEnd inp then
        ((streamLoop inp.decode inp.abortAt 0 initState inp.chunks).1, Outcome.ok)
      else if e = StreamErr.connAborted then
        ((streamLoop inp.decode inp.abortAt 0 initState inp.chunks).1,
          Outcome.failedTimeout)
      else if e = StreamErr.streamDestroyed then
        ((streamLoop inp.decode inp.abortAt 0 initState inp.chunks).1, Outcome.ok)
      else
        ((streamLoop inp.decode inp.abortAt 0 initState inp.chunks).1,
          Outcome.failedGeneric)
    | none =>
      if abortedAtEnd inp then
        ((streamLoop inp.decode inp.abortAt 0 initState inp.chunks).1, Outcome.ok)
      else
        ((streamLoop inp.decode inp.abortAt 0 initState inp.chunks).1 ++
            (finalPhase inp.decode
              (streamLoop inp.decode inp.abortAt 0 initState inp.chunks).2.1).1 ++
            [OutputEvent.usage
              (match inp.countIn with | some n => n | none => 0)
              (match inp.countOut
                  (finalPhase inp.decode
                    (streamLoop inp.decode inp.abortAt 0 initState
                      inp.chunks).2.1).2.assistantText with
                | some n => n
                | none => 0)],
          Outcome.ok)

/-- Recognizer for usage events. -/
def isUsageB : OutputEvent → Bool
  | OutputEvent.usage _ _ => true
  | _ => false

/-- Recognizer for plain text events. -/
def isTextB : OutputEvent → Bool
  | OutputEvent.text _ => true
  | _ => false

/-- Recognizer for reasoning events. -/
def isReasoningB : OutputEvent → Bool
  | OutputEvent.reasoning _ => true
  | _ => false

/-- A run completes normally when the loop never observes the abort signal
and the transport ends gracefully. -/
def normalB (inp : RunInput) : Bool :=
  !(abortedAtEnd inp) && inp.streamErr.isNone

theorem any_map_false {α β : Type} (f : α → β) (p : β → Bool) (l : List α)
    (h : ∀ a, p (f a) = false) : ((l.map f).any p) = false := by
  induction l with
  | nil => rfl
  | cons a l ih => simp [h, ih]

theorem segToEvent_no_usage (l : List XmlMatcher.Segment) :
    ((l.map segToEvent).any isUsageB) = false := by
  apply any_map_false
  intro s
  by_cases hm : s.matched <;> simp [segToEvent, isUsageB, hm]

theorem handlePayload_no_usage (decode : List Char → Option Frame)
    (st : PipeState) (d : List Char) :
    ((handlePayload decode st d).1.any isUsageB) = false := by
  unfold handlePayload
  cases hd : decode d with
  | none => rfl
  | some f =>
    have h2 : ((f.toolCalls.map fun tc =>
        OutputEvent.toolCallPartial tc.index tc.id tc.name tc.args).any isUsageB) =
        false := by
      apply any_map_false
      intro tc
      simp [isUsageB]
    have h3 : ∀ l : List Nat, ((endEvents l).any isUsageB) = false := by
      intro l
      unfold endEvents
      apply any_map_false
      intro i
      simp [isUsageB]
    by_cases hc : f.content ≠ [] <;> by_cases hf : f.finishReason ≠ [] <;>
      simp [hc, hf, List.any_append, segToEvent_no_usage, h2, h3]

theorem handlePayloads_no_usage (decode : List Char → Option Frame)
    (ps : List (List Char)) :
    ∀ st : PipeState, ((handlePayloads decode st ps).1.any isUsageB) = false := by
  induction ps with
  | nil => intro st; rfl
  | cons d ds ih =>
    intro st
    simp [handlePayloads, List.any_append, handlePayload_no_usage, ih]

theorem processChunk_no_usage (decode : List Char → Option Frame)
    (st : PipeState) (c : List Char) :
    ((processChunk decode st c).1.any isUsageB) = false := by
  unfold processChunk
  exact handlePayloads_no_usage _ _ _

theorem streamLoop_no_usage (decode : List Char → Option Frame)
    (abortAt : Option Nat) (cs : List (List Char)) :
    ∀ (i : Nat) (st : PipeState),
      ((streamLoop decode abortAt i st cs).1.any isUsageB) = false := by
  induction cs with
  | nil => intro i st; rfl
  | cons c cs ih =>
    intro i st
    by_cases ho : observedAt abortAt i = true
    · simp [streamLoop, ho]
    · simp [streamLoop, ho, List.any_append, processChunk_no_usage, ih]

theorem finalFrame_no_usage (decode : List Char → Option Frame)
    (st : PipeState) (d : List Char) :
    ((finalFrame decode st d).1.any isUsageB) = false := by
  unfold finalFrame
  cases hd : decode d with
  | none => rfl
  | some f =>
    by_cases hc : f.content ≠ [] <;> simp [hc, segToEvent_no_usage]

theorem finalFrames_no_usage (decode : List Char → Option Frame)
    (ps : List (List Char)) :
    ∀ st : PipeState, ((finalFrames decode st ps).1.any isUsageB) = false := by
  induction ps with
  | nil => intro st; rfl
  | cons d ds ih =>
    intro st
    simp [finalFrames, List.any_append, finalFrame_no_usage, ih]

theorem finalPhase_no_usage (decode : List Char → Option Frame) (st : PipeState) :
    ((finalPhase decode st).1.any isUsageB) = false := by
  unfold finalPhase
  simp [List.any_append, finalFrames_no_usage, segToEvent_no_usage]

theorem observedAt_mono (a : Option Nat) (i i' : Nat) (h : i ≤ i')
    (ho : observedAt a i = true) : observedAt a i' = true := by
  cases a with
  | none => simp [observedAt] at ho
  | some j =>
    simp only [observedAt, decide_eq_true_eq] at ho ⊢
    omega

theorem streamLoop_broke (decode : List Char → Option Frame)
    (abortAt : Option Nat) (cs : List (List Char)) :
    ∀ (i : Nat) (st : PipeState),
      (streamLoop decode abortAt i st cs).2.2 = true →
      observedAt abortAt (i + cs.length) = true := by
  induction cs with
  | nil =>
    intro i st h
    simp [streamLoop] at h
  | cons c cs ih =>
    intro i st h
    by_cases ho : observedAt abortAt i = true
    · exact observedAt_mono _ _ _ (Nat.le_add_right _ _) ho
    · simp only [streamLoop, ho, if_neg Bool.false_ne_true] at h
      have := ih (i + 1) (processChunk decode st c).2 h
      have harith : i + 1 + cs.length = i + (c :: cs).length := by
        simp [List.length_cons]
        omega
      rwa [harith] at this

theorem run_usage_iff (inp : RunInput) :
    ((run inp).1.any isUsageB) = normalB inp := by
  unfold run
  by_cases hb : (streamLoop inp.decode inp.abortAt 0 initState inp.chunks).2.2 = true
  · rw [if_pos hb]
    have hobs := streamLoop_broke inp.decode inp.abortAt inp.chunks 0 initState hb
    have ha : abortedAtEnd inp = true := by
      unfold abortedAtEnd
      simpa using hobs
    simp [normalB, ha, streamLoop_no_usage]
  · rw [if_neg hb]
    rcases hse : inp.streamErr with _ | e <;> simp only [hse]
    · by_cases ha : abortedAtEnd inp = true
      · simp [ha, streamLoop_no_usage, normalB, hse]
      · simp [ha, List.any_append, streamLoop_no_usage, finalPhase_no_usage,
          isUsageB, normalB, hse]
    · by_cases ha : abortedAtEnd inp = true <;> cases e <;>
        simp [streamLoop_no_usage, normalB, hse, ha]

theorem dropLast_any_false {l : List OutputEvent}
    (h : (l.any isUsageB) = false) : (l.dropLast.any isUsageB) = false := by
  apply List.any_eq_false.mpr
  intro x hx
  exact List.any_eq_false.mp h x ((List.dropLast_sublist l).subset hx)

theorem run_usage_last (inp : RunInput) :
    ((run inp).1.dropLast.any isUsageB) = false := by
  unfold run
  by_cases hb : (streamLoop inp.decode inp.abortAt 0 initState inp.chunks).2.2 = true
  · rw [if_pos hb]
    exact dropLast_any_false (streamLoop_no_usage _ _ _ _ _)
  · rw [if_neg hb]
    rcases hse : inp.streamErr with _ | e <;> simp only [hse]
    · by_cases ha : abortedAtEnd inp = true
      · rw [if_pos ha]
        exact dropLast_any_false (streamLoop_no_usage _ _ _ _ _)
      · rw [if_neg ha]
        have hdrop :
            ∀ (a b : List OutputEvent) (u : OutputEvent),
              (a ++ b ++ [u]).dropLast = a ++ b := by
          intro a b u
          rw [List.append_assoc]
          simp
        rw [hdrop]
        simp [List.any_append, streamLoop_no_usage, finalPhase_no_usage]
    · have hL := dropLast_any_false
        (streamLoop_no_usage inp.decode inp.abortAt inp.chunks 0 initState)
      by_cases ha : abortedAtEnd inp = true <;> cases e <;> simp [ha, hL]

/-- C4: in every run the usage event only ever occupies the last position
of the output sequence (no event of any kind follows it), and a usage event
is present exactly when the run completes normally — never when the abort
signal was observed and never when the transport ended in an error. -/
theorem usage_last_and_only_on_normal_completion (inp : RunInput) :
    ((run inp).1.dropLast.any isUsageB = false) ∧
      ((run inp).1.any isUsageB = normalB inp) :=
  ⟨run_usage_last inp, run_usage_iff inp⟩

/-- C6: a payload on which the JSON decode fails is skipped without
touching the pipeline state — inserting a malformed payload anywhere
between valid payloads leaves the emitted events and the resulting state
exactly as they would be without it. -/
theorem malformed_payload_skipped (decode : List Char → Option Frame)
    (st : PipeState) (ps1 ps2 : List (List Char)) (bad : List Char)
    (hbad : decode bad = none) :
    handlePayloads decode st (ps1 ++ bad :: ps2) =
      handlePayloads decode st (ps1 ++ ps2) := by
  induction ps1 generalizing st with
  | nil =>
    simp only [List.nil_append, handlePayloads]
    rw [show handlePayload decode st bad = ([], st) by simp [handlePayload, hbad]]
    simp
  | cons d ds ih =>
    simp only [List.cons_append, handlePayloads]
    have ih' : ∀ st' : PipeState,
        handlePayloads decode st' (ds.append (bad :: ps2)) =
          handlePayloads decode st' (ds.append ps2) := ih
    rw [ih']

/-- A concrete decode function for witnesses: the payload `"g"` is the only
valid frame, carrying the content `"hi"`. -/
def decodeW : List Char → Option Frame :=
  fun s => if s = ['g'] then some ⟨['h', 'i'], [], []⟩ else none

/-- C6 witness: a malformed payload between two valid frames changes
nothing. -/
theorem malformed_payload_skipped_witness :
    decodeW ['b'] = none ∧
      handlePayloads decodeW initState ([['g']] ++ ['b'] :: [['g']]) =
        handlePayloads decodeW initState ([['g']] ++ [['g']]) :=
  ⟨by decide, malformed_payload_skipped decodeW initState [['g']] [['g']] ['b'] (by decide)⟩

theorem all_map_true {α β : Type} (f : α → β) (p : β → Bool) (l : List α)
    (h : ∀ a, p (f a) = true) : ((l.map f).all p) = true := by
  induction l with
  | nil => rfl
  | cons a l ih => simp [h, ih]

theorem segToEvent_text_or_reasoning (l : List XmlMatcher.Segment) :
    ((l.map segToEvent).all fun e => isTextB e || isReasoningB e) = true := by
  apply all_map_true
  intro s
  by_cases hm : s.matched <;> simp [segToEvent, isTextB, isReasoningB, hm]

/-- A frame with its tool-call deltas and finish reason removed. -/
def scrubFrame (f : Frame) : Frame :=
  { content := f.content, toolCalls := [], finishReason := [] }

theorem finalFrame_scrub (decode : List Char → Option Frame)
    (st : PipeState) (d : List Char) :
    finalFrame (fun s => (decode s).map scrubFrame) st d = finalFrame decode st d := by
  unfold finalFrame
  cases hd : decode d with
  | none => simp [hd]
  | some f => simp [hd, scrubFrame]

theorem finalFrames_scrub (decode : List Char → Option Frame)
    (ps : List (List Char)) :
    ∀ st : PipeState,
      finalFrames (fun s => (decode s).map scrubFrame) st ps =
        finalFrames decode st ps := by
  induction ps with
  | nil => intro st; rfl
  | cons d ds ih =>
    intro st
    simp only [finalFrames, finalFrame_scrub, ih]

theorem finalFrame_text_or_reasoning (decode : List Char → Option Frame)
    (st : PipeState) (d : List Char) :
    ((finalFrame decode st d).1.all fun e => isTextB e || isReasoningB e) = true := by
  unfold finalFrame
  cases hd : decode d with
  | none => rfl
  | some f =>
    by_cases hc : f.content ≠ [] <;> simp [hc, segToEvent_text_or_reasoning]

theorem finalFrames_text_or_reasoning (decode : List Char → Option Frame)
    (ps : List (List Char)) :
    ∀ st : PipeState,
      ((finalFrames decode st ps).1.all fun e => isTextB e || isReasoningB e) = true := by
  induction ps with
  | nil => intro st; rfl
  | cons d ds ih =>
    intro st
    simp only [finalFrames, List.all_append, finalFrame_text_or_reasoning, ih,
      Bool.and_self]

/-- C10: the post-stream flush phase emits only text and reasoning content
events — never a tool-call partial, tool-call end, or usage event — and it
is insensitive to the tool-call deltas and finish reason of the flushed
final frame (removing them changes nothing). -/
theorem flush_only_content (decode : List Char → Option Frame) (st : PipeState) :
    (((finalPhase decode st).1.all fun e => isTextB e || isReasoningB e) = true) ∧
      finalPhase (fun s => (decode s).map scrubFrame) st = finalPhase decode st := by
  constructor
  · unfold finalPhase
    simp [List.all_append, finalFrames_text_or_reasoning, segToEvent_text_or_reasoning]
  · unfold finalPhase
    rw [finalFrames_scrub]

theorem streamLoop_none_shift (decode : List Char → Option Frame)
    (cs : List (List Char)) :
    ∀ (i i' : Nat) (st : PipeState),
      streamLoop decode none i st cs = streamLoop decode none i' st cs := by
  induction cs with
  | nil => intro i i' st; rfl
  | cons c cs ih =>
    intro i i' st
    simp only [streamLoop, observedAt]
    rw [ih (i + 1) (i' + 1)]

theorem streamLoop_none_no_break (decode : List Char → Option Frame)
    (cs : List (List Char)) :
    ∀ (i : Nat) (st : PipeState),
      (streamLoop decode none i st cs).2.2 = false := by
  induction cs with
  | nil => intro i st; rfl
  | cons c cs ih =>
    intro i st
    simp [streamLoop, observedAt, ih]

theorem streamLoop_none_append (decode : List Char → Option Frame)
    (as bs : List (List Char)) :
    ∀ (i : Nat) (st : PipeState),
      streamLoop decode none i st (as ++ bs) =
        ((streamLoop decode none i st as).1 ++
            (streamLoop decode none i (streamLoop decode none i st as).2.1 bs).1,
          (streamLoop decode none i (streamLoop decode none i st as).2.1 bs).2) := by
  induction as with
  | nil =>
    intro i st
    simp [streamLoop]
  | cons a as ih =>
    intro i st
    have ih' : ∀ st' : PipeState,
        streamLoop decode none (i + 1) st' (as.append bs) =
          ((streamLoop decode none (i + 1) st' as).1 ++
              (streamLoop decode none (i + 1)
                (streamLoop decode none (i + 1) st' as).2.1 bs).1,
            (streamLoop decode none (i + 1)
              (streamLoop decode none (i + 1) st' as).2.1 bs).2) :=
      fun st' => ih (i + 1) st'
    simp only [List.cons_append, streamLoop, observedAt, Bool.false_eq_true, if_false]
    rw [ih', streamLoop_none_shift decode bs (i + 1) i]
    simp [List.append_assoc]

theorem streamLoop_abort (decode : List Char → Option Frame) (j : Nat)
    (cs : List (List Char)) :
    ∀ (i : Nat) (st : PipeState), i ≤ j →
      streamLoop decode (some j) i st cs =
        ((streamLoop decode none i st (cs.take (j - i))).1,
          (streamLoop decode none i st (cs.take (j - i))).2.1,
          decide (j - i < cs.length)) := by
  induction cs with
  | nil =>
    intro i st hij
    simp [streamLoop]
  | cons c cs ih =>
    intro i st hij
    by_cases hji : j = i
    · subst hji
      have ho : observedAt (some j) j = true := by simp [observedAt]
      simp [streamLoop, ho, Nat.sub_self]
    · have hij' : i + 1 ≤ j := by omega
      have ho : observedAt (some j) i = false := by
        simp only [observedAt, decide_eq_false_iff_not]
        omega
      have ho2 : observedAt none i = false := rfl
      have htake : (c :: cs).take (j - i) = c :: cs.take (j - (i + 1)) := by
        have harith : j - i = (j - (i + 1)) + 1 := by omega
        rw [harith]
        rfl
      rw [htake]
      simp only [streamLoop, ho, ho2, Bool.false_eq_true, if_false]
      rw [ih (i + 1) (processChunk decode st c).2 hij']
      have hdec : decide (j - (i + 1) < cs.length) =
          decide (j - i < (c :: cs).length) := by
        rw [decide_eq_decide]
        simp only [List.length_cons]
        omega
      rw [hdec]

/-- The reference run with no cancellation and a gracefully ending
transport. -/
def noCancel (inp : RunInput) : RunInput :=
  { inp with abortAt := none, streamErr := none }

theorem run_no_break (inp : RunInput) (ha : abortedAtEnd inp = false) :
    (streamLoop inp.decode inp.abortAt 0 initState inp.chunks).2.2 = false := by
  cases hbb : (streamLoop inp.decode inp.abortAt 0 initState inp.chunks).2.2 with
  | false => rfl
  | true =>
    have h2 := streamLoop_broke inp.decode inp.abortAt inp.chunks 0 initState hbb
    unfold abortedAtEnd at ha
    rw [show 0 + inp.chunks.length = inp.chunks.length by omega] at h2
    rw [h2] at ha
    cases ha

theorem run_normal (inp : RunInput) (hse : inp.streamErr = none)
    (ha : abortedAtEnd inp = false) :
    run inp =
      ((streamLoop inp.decode inp.abortAt 0 initState inp.chunks).1 ++
          (finalPhase inp.decode
            (streamLoop inp.decode inp.abortAt 0 initState inp.chunks).2.1).1 ++
          [OutputEvent.usage
            (match inp.countIn with | some n => n | none => 0)
            (match inp.countOut
                (finalPhase inp.decode
                  (streamLoop inp.decode inp.abortAt 0 initState
                    inp.chunks).2.1).2.assistantText with
              | some n => n
              | none => 0)],
        Outcome.ok) := by
  unfold run
  rw [hse]
  simp [run_no_break inp ha, ha]

theorem run_outcome (inp : RunInput) :
    (run inp).2 =
      if (streamLoop inp.decode inp.abortAt 0 initState inp.chunks).2.2 then Outcome.ok
      else
        match inp.streamErr with
        | some e =>
          if e = StreamErr.canceled ∨ abortedAtEnd inp then Outcome.ok
          else if e = StreamErr.connAborted then Outcome.failedTimeout
          else if e = StreamErr.streamDestroyed then Outcome.ok
          else Outcome.failedGeneric
        | none => Outcome.ok := by
  unfold run
  by_cases hb : (streamLoop inp.decode inp.abortAt 0 initState inp.chunks).2.2 = true
  · simp [hb]
  · rcases hse : inp.streamErr with _ | e <;> simp only [hse]
    · by_cases ha : abortedAtEnd inp = true <;> simp [hb, ha]
    · by_cases h1 : e = StreamErr.canceled ∨ abortedAtEnd inp = true
      · simp [hb, h1]
      · have he1 : ¬e = StreamErr.canceled := fun hc => h1 (Or.inl hc)
        have he2 : ¬abortedAtEnd inp = true := fun hc => h1 (Or.inr hc)
        by_cases h2 : e = StreamErr.connAborted
        · simp [hb, h1, h2, he1, he2]
        · by_cases h3 : e = StreamErr.streamDestroyed <;>
            simp [hb, h1, h2, h3, he1, he2]

/-- C3: cancellation observed before any chunk is consumed yields zero
events; cancellation first observed at iteration `j` yields exactly the
events of the first `j` chunks, which form a strict prefix of the event
sequence of the same stream run to completion with no cancellation; and a
cancelled run never emits a usage event. -/
theorem cancellation_truncates (inp : RunInput) (j : Nat)
    (ha : inp.abortAt = some j) (hj : j ≤ inp.chunks.length) :
    (j = 0 → (run inp).1 = []) ∧
      (run inp).1 =
        (streamLoop inp.decode none 0 initState (inp.chunks.take j)).1 ∧
      (∃ t, t ≠ [] ∧ (run inp).1 ++ t = (run (noCancel inp)).1) ∧
      ((run inp).1.any isUsageB = false) := by
  have habort : streamLoop inp.decode (some j) 0 initState inp.chunks =
      ((streamLoop inp.decode none 0 initState (inp.chunks.take j)).1,
        (streamLoop inp.decode none 0 initState (inp.chunks.take j)).2.1,
        decide (j < inp.chunks.length)) := by
    have h := streamLoop_abort inp.decode j inp.chunks 0 initState (Nat.zero_le j)
    simpa using h
  have hev : (run inp).1 =
      (streamLoop inp.decode none 0 initState (inp.chunks.take j)).1 := by
    unfold run
    rw [ha, habort]
    by_cases hb : j < inp.chunks.length
    · simp [hb]
    · have haend : abortedAtEnd inp = true := by
        unfold abortedAtEnd observedAt
        rw [ha]
        simp [hj]
      rcases hse : inp.streamErr with _ | e <;> simp [hse, hb, haend]
  refine ⟨?_, hev, ?_, ?_⟩
  · intro hj0
    subst hj0
    rw [hev]
    rfl
  · have hnc1 : (run (noCancel inp)).1 =
        (streamLoop inp.decode none 0 initState inp.chunks).1 ++
          (finalPhase inp.decode
            (streamLoop inp.decode none 0 initState inp.chunks).2.1).1 ++
          [OutputEvent.usage
            (match inp.countIn with | some n => n | none => 0)
            (match inp.countOut
                (finalPhase inp.decode
                  (streamLoop inp.decode none 0 initState
                    inp.chunks).2.1).2.assistantText with
              | some n => n
              | none => 0)] := by
      have h := run_normal (noCancel inp) rfl rfl
      rw [show (run (noCancel inp)).1 =
          ((run (noCancel inp)).1, (run (noCancel inp)).2).1 from rfl]
      exact congrArg Prod.fst h
    have happ := streamLoop_none_append inp.decode (inp.chunks.take j)
      (inp.chunks.drop j) 0 initState
    rw [List.take_append_drop] at happ
    have hpre : (run inp).1 <+: (run (noCancel inp)).1 := by
      rw [hev, hnc1, happ]
      simp only [List.append_assoc]
      exact List.prefix_append _ _
    rcases hpre with ⟨t, ht⟩
    refine ⟨t, ?_, ht⟩
    intro ht0
    subst ht0
    rw [List.append_nil] at ht
    have h1 : ((run inp).1.any isUsageB) = false := by
      rw [hev]
      exact streamLoop_no_usage _ _ _ _ _
    have h2 : ((run (noCancel inp)).1.any isUsageB) = true := by
      rw [run_usage_iff]
      simp [normalB, abortedAtEnd, observedAt, noCancel]
    rw [ht] at h1
    rw [h1] at h2
    exact Bool.false_ne_true h2
  · rw [hev]
    exact streamLoop_no_usage _ _ _ _ _

/-- A concrete run for witnesses: two chunks each carrying one valid frame
(payload `"g"`, content `"hi"`), graceful transport end, abort observed at
iteration 1. -/
def runInputW : RunInput :=
  { decode := decodeW
    countIn := some 3
    countOut := fun _ => some 4
    chunks := [['d', 'a', 't', 'a', ':', ' ', 'g', '\n'],
      ['d', 'a', 't', 'a', ':', ' ', 'g', '\n']]
    streamErr := none
    abortAt := some 1 }

/-- C3 witness: abort observed after one chunk truncates the run to the
first chunk's events, a strict prefix of the uncancelled run's events. -/
theorem cancellation_truncates_witness :
    runInputW.abortAt = some 1 ∧ 1 ≤ runInputW.chunks.length ∧
      ((1 = 0 → (run runInputW).1 = []) ∧
        (run runInputW).1 =
          (streamLoop runInputW.decode none 0 initState
            (runInputW.chunks.take 1)).1 ∧
        (∃ t, t ≠ [] ∧ (run runInputW).1 ++ t = (run (noCancel runInputW)).1) ∧
        ((run runInputW).1.any isUsageB = false)) :=
  ⟨rfl, by decide, cancellation_truncates runInputW 1 rfl (by decide)⟩

/-- C7: a throwing input-token count behaves exactly as a count of zero, a
throwing output-token count behaves exactly as a count of zero, neither
ever changes the run's outcome (so a counting failure never propagates to
the caller as an error), and on a normally completing run with both
counters throwing the usage event is still emitted, reporting zeros. -/
theorem counting_failures_nonfatal (inp : RunInput) :
    run { inp with countIn := none } = run { inp with countIn := some 0 } ∧
      run { inp with countOut := fun s => none } =
        run { inp with countOut := fun s => some 0 } ∧
      (run { inp with countIn := none, countOut := fun s => none }).2 =
        (run inp).2 ∧
      (normalB inp = true →
        ∃ pre,
          (run { inp with countIn := none, countOut := fun s => none }).1 =
            pre ++ [OutputEvent.usage 0 0]) := by
  refine ⟨rfl, rfl, ?_, ?_⟩
  · rw [run_outcome, run_outcome]
    rfl
  · intro hn
    have hae : abortedAtEnd inp = false := by
      cases h : abortedAtEnd inp with
      | false => rfl
      | true =>
        unfold normalB at hn
        rw [h] at hn
        simp at hn
    have hse : inp.streamErr = none := by
      cases h : inp.streamErr with
      | none => rfl
      | some e =>
        unfold normalB at hn
        rw [h] at hn
        simp at hn
    have h := run_normal { inp with countIn := none, countOut := fun s => none }
      hse hae
    refine ⟨(streamLoop inp.decode inp.abortAt 0 initState inp.chunks).1 ++
      (finalPhase inp.decode
        (streamLoop inp.decode inp.abortAt 0 initState inp.chunks).2.1).1, ?_⟩
    have h1 : (run { inp with countIn := none, countOut := fun s => none }).1 =
        (streamLoop inp.decode inp.abortAt 0 initState inp.chunks).1 ++
          (finalPhase inp.decode
            (streamLoop inp.decode inp.abortAt 0 initState inp.chunks).2.1).1 ++
          [OutputEvent.usage 0 0] := congrArg Prod.fst h
    rw [h1]

/-- A concrete normally completing run: one chunk with one valid frame,
graceful transport end, no abort. -/
def runInputN : RunInput :=
  { decode := decodeW
    countIn := some 3
    countOut := fun _ => some 4
    chunks := [['d', 'a', 't', 'a', ':', ' ', 'g', '\n']]
    streamErr := none
    abortAt := none }

/-- C7 witness: on a concrete normally completing run, both counters
throwing still yields a final usage event reporting zeros. -/
theorem counting_failures_nonfatal_witness :
    normalB runInputN = true ∧
      ∃ pre,
        (run { runInputN with countIn := none, countOut := fun s => none }).1 =
          pre ++ [OutputEvent.usage 0 0] :=
  ⟨rfl, (counting_failures_nonfatal runInputN).2.2.2 rfl⟩

/-- A run whose transport reports the stream destroyed while no
cancellation was ever requested. -/
def runInputDestroyed : RunInput :=
  { decode := decodeW
    countIn := some 0
    countOut := fun _ => some 0
    chunks := []
    streamErr := some StreamErr.streamDestroyed
    abortAt := none }

/-- C8 counterexample: when the transport reports the stream destroyed and
no cancellation was requested, `createMessage` ends the output sequence
silently as a successful stop (outcome ok, no failure raised) rather than
reporting a failure — the `ERR_STREAM_DESTROYED` branch returns without
checking the abort signal (lm-studio.ts lines 306-309). -/
theorem destroyed_stream_not_reported :
    runInputDestroyed.streamErr = some StreamErr.streamDestroyed ∧
      runInputDestroyed.abortAt = none ∧
      (run runInputDestroyed).2 = Outcome.ok ∧
      (run runInputDestroyed).1 = [] :=
  ⟨rfl, rfl, rfl, rfl⟩

/-- C8 amended: when the transport reports the stream destroyed and no
cancellation was requested, `createMessage` treats it exactly like a
cancellation — the output sequence ends silently as a stop (the generator
returns normally, no failure is raised) and no usage event is emitted. -/
theorem destroyed_stream_silent_stop (inp : RunInput)
    (hd : inp.streamErr = some StreamErr.streamDestroyed)
    (ha : inp.abortAt = none) :
    (run inp).2 = Outcome.ok ∧ ((run inp).1.any isUsageB = false) := by
  constructor
  · have haend : abortedAtEnd inp = false := by
      unfold abortedAtEnd observedAt
      rw [ha]
    rw [run_outcome, run_no_break inp haend]
    simp [hd]
  · rw [run_usage_iff]
    simp [normalB, hd]

/-- C8 amended witness. -/
theorem destroyed_stream_silent_stop_witness :
    runInputDestroyed.streamErr = some StreamErr.streamDestroyed ∧
      runInputDestroyed.abortAt = none ∧
      ((run runInputDestroyed).2 = Outcome.ok ∧
        ((run runInputDestroyed).1.any isUsageB = false)) :=
  ⟨rfl, rfl, destroyed_stream_silent_stop runInputDestroyed rfl rfl⟩

/-- JavaScript `[...new Set(array)]` (lm-studio.ts line 380):
first-occurrence-preserving deduplication. -/
def jsSetDedup (l : List (List Char)) : List (List Char) :=
  go [] l
where
  go (seen : List (List Char)) : List (List Char) → List (List Char)
    | [] => []
    | x :: xs => if x ∈ seen then go seen xs else x :: go (x :: seen) xs

/-- `getLmStudioModels` (lm-studio.ts lines 372-384).  `canParse` abstracts
`URL.canParse`; `fetch` abstracts the axios GET of `/v1/models` together
with the `response.data?.data?.map(model => model.id)` extraction: `none`
means the request threw, `some none` a response without the id array
(degraded to `[]` by `|| []`), `some (some ids)` the extracted id list. -/
def getLmStudioModels (canParse : List Char → Bool)
    (fetch : List Char → Option (Option (List (List Char))))
    (baseUrl : List Char) : List (List Char) :=
  if !canParse baseUrl then []
  else
    match fetch baseUrl with
    | none => []
    | some d => jsSetDedup (d.getD [])

/-- C9: `getLmStudioModels` never propagates an error — an unparsable base
URL yields the empty list, and a failing models-listing request yields the
empty list. -/
theorem models_listing_never_fails (canParse : List Char → Bool)
    (fetch : List Char → Option (Option (List (List Char))))
    (baseUrl : List Char) :
    (canParse baseUrl = false → getLmStudioModels canParse fetch baseUrl = []) ∧
      (fetch baseUrl = none → getLmStudioModels canParse fetch baseUrl = []) := by
  constructor
  · intro h
    simp [getLmStudioModels, h]
  · intro h
    by_cases hc : canParse baseUrl <;> simp [getLmStudioModels, hc, h]

/-- C9 witness: a concrete unparsable URL and a concrete failing request
both yield the empty list. -/
theorem models_listing_never_fails_witness :
    ((fun _ : List Char => false) ['u'] = false ∧
        getLmStudioModels (fun _ => false)
          (fun _ => some (some [['m']])) ['u'] = []) ∧
      ((fun _ : List Char => (none : Option (Option (List (List Char))))) ['u'] =
          none ∧
        getLmStudioModels (fun _ => true) (fun _ => none) ['u'] = []) :=
  ⟨⟨rfl, (models_listing_never_fails _ _ _).1 rfl⟩,
    ⟨rfl, (models_listing_never_fails _ _ _).2 rfl⟩⟩
